import Mathlib

/-!
Verification development for the yangson instance-zipper and schema modules
(src/yangson/instance.py, src/yangson/schema.py).  The Python classes are
shallowly embedded: instance values become an inductive `Value`, the
persistent `LinkedList` becomes `List Value`, schema nodes become an
inductive tree, and every fallible operation returns `Except PyErr _`
where the constructors of `PyErr` name the Python exceptions that the
code can raise (including unhandled `TypeError` / `AttributeError`
crashes).  Wall-clock timestamps on structured values are bookkeeping
supplied by an external collaborator and are not modelled; no claim
mentions them.
-/

namespace Yangson

/-- Instance values (instvalue.py is not under src/).  Modelled from the spec:
a Value is a scalar, an insertion-order-preserving object (member list), or an
ordered array. -/
inductive Value where
  | int  : Int → Value
  | str  : String → Value
  | bool : Bool → Value
  | null : Value
  | obj  : List (String × Value) → Value
  | arr  : List Value → Value
deriving Repr

/-- Keys used for indexing instance values: member names or entry indices. -/
inductive IKey where
  | str : String → IKey
  | int : Int → IKey
deriving Repr, DecidableEq

/-- Python exceptions that the embedded code can raise.  `rawMemberError` is
listed in the spec's error taxonomy; it is included so that claims about it
are statable (no embedded operation produces it). -/
inductive PyErr where
  | instanceValueError
  | nonexistentInstance
  | nonexistentSchemaNode
  | unexpectedInput
  | endOfInput
  | rawMemberError
  | typeError
  | keyError
  | indexError
  | attributeError
  | valueError
deriving Repr, DecidableEq

/-- Modelled from the spec: lookup in an insertion-ordered object
(Python `dict.__getitem__`, first matching key). -/
def objLookup : List (String × Value) → String → Option Value
  | [], _ => none
  | (k, v) :: rest, q => if k = q then some v else objLookup rest q

/-- Modelled from the spec: Python `dict.__setitem__` on an insertion-ordered
object: an existing key keeps its position, a new key is appended at the end. -/
def objSet : List (String × Value) → String → Value → List (String × Value)
  | [], q, w => [(q, w)]
  | (k, v) :: rest, q, w =>
      if k = q then (q, w) :: rest else (k, v) :: objSet rest q w

/-- Modelled from the spec: Python `dict.pop(key)` on an insertion-ordered
object: remove the key and return its value together with the remaining
members in their original order; `none` models `KeyError`. -/
def objPop : List (String × Value) → String → Option (Value × List (String × Value))
  | [], _ => none
  | (k, v) :: rest, q =>
      if k = q then some (v, rest)
      else match objPop rest q with
           | none => none
           | some (w, rest2) => some (w, (k, v) :: rest2)

/-- Embeds `LinkedList.from_list` (instance.py:58-68): cons the values of the
Python list in reversed order onto the empty list.  Note that, unlike the
upstream yangson `from_list`, this version has no `reverse` flag, so the head
of the result is the FIRST element of the input. -/
def fromList (vals : List Value) : List Value :=
  vals.reverse.foldl (fun res v => v :: res) []

mutual

/-- Structural equality test on values, used for the Python `==` / `!=`
comparisons of the source (scalar comparisons in practice). -/
def valueBEq : Value → Value → Bool
  | .int a, .int b => a == b
  | .str a, .str b => a == b
  | .bool a, .bool b => a == b
  | .null, .null => true
  | .obj a, .obj b => objValBEq a b
  | .arr a, .arr b => arrValBEq a b
  | _, _ => false

/-- Componentwise equality of object member lists. -/
def objValBEq : List (String × Value) → List (String × Value) → Bool
  | [], [] => true
  | (k, v) :: r, (k2, v2) :: r2 => k == k2 && valueBEq v v2 && objValBEq r r2
  | _, _ => false

/-- Componentwise equality of arrays. -/
def arrValBEq : List Value → List Value → Bool
  | [], [] => true
  | v :: r, v2 :: r2 => valueBEq v v2 && arrValBEq r r2
  | _, _ => false

end

/-- Python subscription `val[key]` on an instance value, with the exception
it raises when it fails (KeyError / IndexError / TypeError). -/
def pySubscript (val : Value) (key : IKey) : Except PyErr Value :=
  match val, key with
  | .obj ms, .str k =>
      match objLookup ms k with
      | some v => .ok v
      | none => .error .keyError
  | .obj _, .int _ => .error .keyError
  | .arr vs, .int i =>
      let n : Int := vs.length
      let j : Int := if i < 0 then n + i else i
      if 0 ≤ j ∧ j < n then .ok (vs.getD j.toNat .null) else .error .indexError
  | .arr _, .str _ => .error .typeError
  | .str s, .int i =>
      let n : Int := s.length
      let j : Int := if i < 0 then n + i else i
      if 0 ≤ j ∧ j < n then .ok (.str (String.mk [s.toList.getD j.toNat ' ']))
      else .error .indexError
  | .str _, .str _ => .error .typeError
  | _, _ => .error .typeError

/-- Python iteration `for en in val`: array entries, object member names,
characters of a string; scalars are not iterable (TypeError). -/
def pyIter : Value → Except PyErr (List Value)
  | .arr vs => .ok vs
  | .obj ms => .ok (ms.map (fun kv => .str kv.1))
  | .str s => .ok (s.toList.map (fun c => .str (String.mk [c])))
  | _ => .error .typeError

/-- The schema node classes of schema.py, collapsed to a kind tag:
ContainerNode, ListNode, ChoiceNode, CaseNode, LeafNode, LeafListNode,
AnydataNode, AnyxmlNode. -/
inductive SchemaKind where
  | container
  | listNode
  | choice
  | caseNode
  | leaf
  | leafList
  | anydata
  | anyxml
deriving Repr, DecidableEq

/-- A schema node: kind, local name, namespace, the namespace of its parent
(the `parent` back-edge of schema.py restricted to the only field the
embedded operations read, `parent.ns`), and the list of children. -/
inductive SchemaNode where
  | mk (kind : SchemaKind) (name : String) (ns : String) (pns : String)
       (children : List SchemaNode)

def SchemaNode.kind : SchemaNode → SchemaKind
  | .mk k _ _ _ _ => k

def SchemaNode.name : SchemaNode → String
  | .mk _ n _ _ _ => n

def SchemaNode.ns : SchemaNode → String
  | .mk _ _ s _ _ => s

def SchemaNode.pns : SchemaNode → String
  | .mk _ _ _ p _ => p

def SchemaNode.children : SchemaNode → List SchemaNode
  | .mk _ _ _ _ c => c

/-- `isinstance(c, DataNode)`: every schema node except choice and case. -/
def SchemaNode.isData (c : SchemaNode) : Bool :=
  c.kind != .choice && c.kind != .caseNode

/-- `isinstance(c, (ChoiceNode, CaseNode))`. -/
def SchemaNode.isChoiceCase (c : SchemaNode) : Bool :=
  c.kind == .choice || c.kind == .caseNode

/-- The candidate-collecting loop of `InternalNode.get_data_child`
(schema.py:182-190), written generically so that it can be run both on plain
schema nodes and on membership-attached ones: scan the children in order;
a matching data child is returned at once (`Sum.inl`); a matching non-data
child is pushed on the FRONT of the candidate list (`cands.insert(0, c)`);
a non-matching choice/case child is appended (`cands.append(c)`). -/
def gdcScan {α : Type} (mtch dat cc : α → Bool) :
    List α → List α → Sum α (List α)
  | cands, [] => .inr cands
  | cands, c :: rest =>
      if mtch c then
        if dat c then .inl c else gdcScan mtch dat cc (c :: cands) rest
      else if cc c then gdcScan mtch dat cc (cands ++ [c]) rest
      else gdcScan mtch dat cc cands rest

/-- Embeds `InternalNode.get_data_child` (schema.py:174-194): resolve the
namespace (`ns if ns else self.ns`), scan the direct children, and if no
direct data child matches, search the collected choice/case candidates in
order, returning the first hit.  The scan runs on `children.attach` so that
the recursive descent is visibly on subterms; `get_data_child_plain` below
restates it over the plain children list. -/
def get_data_child (s : SchemaNode) (name : String) (ns : Option String) :
    Option SchemaNode :=
  let nsr := ns.getD s.ns
  match gdcScan (fun c : {c // c ∈ s.children} => c.1.name == name && c.1.ns == nsr)
      (fun c => c.1.isData) (fun c => c.1.isChoiceCase) [] s.children.attach with
  | .inl c => some c.1
  | .inr cands =>
      (cands.map (fun cp => get_data_child cp.1 name (some nsr))).foldl
        (fun a b => a <|> b) none
termination_by sizeOf s
decreasing_by
  have hmem : cp.1 ∈ s.children := cp.2
  have h1 : sizeOf cp.1 < sizeOf s.children := List.sizeOf_lt_of_mem hmem
  cases s with
  | mk k n sns pns cs =>
    simp only [SchemaNode.children] at h1
    simp only [SchemaNode.mk.sizeOf_spec]
    omega

/-- Embeds the `qname` property (schema.py:71-75): the local name, prefixed
with the namespace when it differs from the parent namespace. -/
def SchemaNode.qname (c : SchemaNode) : String :=
  if c.ns = c.pns then c.name else c.ns ++ ":" ++ c.name

/-- Modelled from the spec: `iname()` is not under src/ (only instance.py
calls it); per spec section 3 / glossary the instance name is
`module:local` iff the schema namespace differs from the parent namespace,
which is the same computation as `qname`. -/
def iname (c : SchemaNode) : String :=
  c.qname

/-- Python `str.partition(":")` restricted to what the callers use: `none`
when there is no colon, otherwise the text before and after the FIRST colon. -/
def partitionColon : List Char → Option (List Char × List Char)
  | [] => none
  | c :: rest =>
      if c = ':' then some ([], rest)
      else match partitionColon rest with
           | none => none
           | some (p, l) => some (c :: p, l)

/-- Modelled from the spec: `InstanceNode._member_schema_node` calls
`self.schema_node._iname2qname(name)`, which is not under src/; per spec
section 4.3 a member name `p:loc` resolves with namespace `p`, a plain `loc`
with the current schema node namespace. -/
def iname2qname (sn : SchemaNode) (nm : String) : String × String :=
  match partitionColon nm.toList with
  | some (p, loc) => (String.mk loc, String.mk p)
  | none => (nm, sn.ns)

mutual

/-- Embeds `from_raw` dispatched over the schema node classes:
`TerminalNode.from_raw` (schema.py:324-330) returns the value unchanged
(leaf, anydata, anyxml); `LeafListNode.from_raw` (schema.py:466-477)
iterates the raw value and appends each entry unchanged;
`ListNode.from_raw` (schema.py:380-391) decodes every entry through
`InternalNode.from_raw`; the internal kinds run the member loop of
`InternalNode.from_raw` (schema.py:261-278).  A structured raw value of the
wrong shape makes CPython crash while iterating / subscripting; such shape
mismatches are modelled as a `typeError` crash (no claim depends on the
exact exception there). -/
def fromRaw (s : SchemaNode) (ns : Option String) (v : Value) :
    Except PyErr Value :=
  match s.kind with
  | .leaf => .ok v
  | .anydata => .ok v
  | .anyxml => .ok v
  | .leafList =>
      match pyIter v with
      | .ok l => .ok (.arr l)
      | .error e => .error e
  | .listNode =>
      match v with
      | .arr entries =>
          match fromRawEntries s ns entries with
          | .ok l => .ok (.arr l)
          | .error e => .error e
      | _ => .error .typeError
  | _ =>
      match v with
      | .obj members =>
          match fromRawMembers s ns [] members with
          | .ok res => .ok (.obj res)
          | .error e => .error e
      | _ => .error .typeError
termination_by (sizeOf v, 1)

/-- The entry loop of `ListNode.from_raw` (schema.py:387-390): decode each
raw entry with `super().from_raw(en, ns)`, i.e. the member loop of
`InternalNode.from_raw`. -/
def fromRawEntries (s : SchemaNode) (ns : Option String) :
    List Value → Except PyErr (List Value)
  | [] => .ok []
  | en :: rest =>
      match en with
      | .obj members =>
          match fromRawMembers s ns [] members with
          | .error e => .error e
          | .ok m =>
              match fromRawEntries s ns rest with
              | .error e => .error e
              | .ok l => .ok (.obj m :: l)
      | _ => .error .typeError
termination_by l => (sizeOf l, 0)

/-- The member loop of `InternalNode.from_raw` (schema.py:268-277): for each
raw member `qn`, partition on `:`; a prefix replaces the CURRENT namespace
state `ns` (and stays in force for the following members), otherwise the
whole name is the local name; resolve `get_data_child(loc, ns)`; when the
child is `None` the next line `res[cn.qname] = cn.from_raw(val[qn])`
dereferences `None` and CPython raises AttributeError; otherwise the member
is decoded by the child `from_raw` (called with no namespace argument) and
stored in `res` under the child `qname`.  The source iterates the member
names and subscripts `val[qn]`; for a (duplicate-free) dict that is the
same as iterating the pairs, which is done here so that the recursion is on
subterms. -/
def fromRawMembers (s : SchemaNode) (ns : Option String)
    (res : List (String × Value)) :
    List (String × Value) → Except PyErr (List (String × Value))
  | [] => .ok res
  | (qn, rv) :: rest =>
      let pl := partitionColon qn.toList
      let ns2 : Option String :=
        match pl with
        | some (p, _) => some (String.mk p)
        | none => ns
      let loc : String :=
        match pl with
        | some (_, l) => String.mk l
        | none => qn
      match get_data_child s loc ns2 with
      | none => .error .attributeError
      | some cn =>
          match fromRaw cn none rv with
          | .error e => .error e
          | .ok w => fromRawMembers s ns2 (objSet res cn.qname w) rest
termination_by l => (sizeOf l, 0)

end

/-- The instance zipper (instance.py): RootNode, ObjectMember (member name,
the OTHER sibling members, focused value, parent instance, schema node) and
ArrayEntry (index, persistent `before` / `after` lists, focused value,
parent instance, schema node).  Timestamps are not modelled. -/
inductive InstanceNode where
  | root (value : Value) (sn : SchemaNode)
  | member (name : String) (siblings : List (String × Value)) (value : Value)
      (parinst : InstanceNode) (sn : SchemaNode)
  | entry (index : Int) (before after : List Value) (value : Value)
      (parinst : InstanceNode) (sn : SchemaNode)

/-- The `value` attribute. -/
def valueOf : InstanceNode → Value
  | .root v _ => v
  | .member _ _ v _ _ => v
  | .entry _ _ _ v _ _ => v

/-- The `schema_node` attribute. -/
def snOf : InstanceNode → SchemaNode
  | .root _ sn => sn
  | .member _ _ _ _ sn => sn
  | .entry _ _ _ _ _ sn => sn

/-- The `index` property of ArrayEntry (instance.py:582-585); 0 for the
other shapes (which have no such attribute). -/
def indexOf : InstanceNode → Int
  | .entry i _ _ _ _ _ => i
  | _ => 0

/-- Embeds `InstanceNode._member_schema_node` (instance.py:401-406):
translate the instance name to a qualified name, resolve it with
`get_data_child`, and raise NonexistentSchemaNode when there is no such
child. -/
def member_schema_node (x : InstanceNode) (nm : String) :
    Except PyErr SchemaNode :=
  let q := iname2qname (snOf x) nm
  match get_data_child (snOf x) q.1 (some q.2) with
  | none => .error .nonexistentSchemaNode
  | some c => .ok c

/-- Embeds `InstanceNode._member` (instance.py:370-377): copy the object,
pop the named member (KeyError becomes NonexistentInstance), resolve the
member schema node (a NonexistentSchemaNode from it is NOT caught by the
`except KeyError` clause and propagates), and build the ObjectMember.
An integer key makes `dict.pop` raise KeyError, hence NonexistentInstance.
On a non-object value the source would crash (`list.pop(str)` is a
TypeError, scalars have no `copy`); the callers guard the value shape. -/
def memberI (x : InstanceNode) (key : IKey) : Except PyErr InstanceNode :=
  match key with
  | .int _ => .error .nonexistentInstance
  | .str nm =>
      match valueOf x with
      | .obj members =>
          match objPop members nm with
          | none => .error .nonexistentInstance
          | some (v, sibs) =>
              match member_schema_node x nm with
              | .error e => .error e
              | .ok csn => .ok (.member nm sibs v x csn)
      | .arr _ => .error .typeError
      | _ => .error .attributeError

/-- Embeds `InstanceNode._entry` (instance.py:379-388): normalize a negative
index by the array length, slice `val[:i]` and `val[i+1:]` through
`LinkedList.from_list` (NO reversal - see `fromList`), and take the focused
value `val[index]`; IndexError (index out of range) and TypeError (string
key) are turned into NonexistentInstance.  On a non-array value the slices
raise TypeError, also caught. -/
def entryI (x : InstanceNode) (key : IKey) : Except PyErr InstanceNode :=
  match valueOf x, key with
  | .arr vals, .int index =>
      let n : Int := vals.length
      let i : Int := if index < 0 then n + index else index
      if 0 ≤ i ∧ i < n then
        .ok (.entry i (fromList (vals.take i.toNat))
          (fromList (vals.drop (i.toNat + 1))) (vals.getD i.toNat .null) x (snOf x))
      else .error .nonexistentInstance
  | _, _ => .error .nonexistentInstance

/-- Embeds `InstanceNode.__getitem__` (instance.py:155-170): dispatch on the
value shape; scalars raise InstanceValueError. -/
def getItem (x : InstanceNode) (key : IKey) : Except PyErr InstanceNode :=
  match valueOf x with
  | .obj _ => memberI x key
  | .arr _ => entryI x key
  | _ => .error .instanceValueError

/-- Embeds the `_copy` methods (instance.py:488-490, 549-557, 676-684):
same zipper context, new focused value. -/
def copyI (x : InstanceNode) (newval : Value) : InstanceNode :=
  match x with
  | .root _ sn => .root newval sn
  | .member n sibs _ p sn => .member n sibs newval p sn
  | .entry i b a _ p sn => .entry i b a newval p sn

/-- Embeds the `_zip` methods: `ObjectMember._zip` (instance.py:543-547)
reassigns the focused member into a copy of the siblings (a Python dict
assignment, so a member that is not among the siblings is APPENDED at the
end of the insertion order); `ArrayEntry._zip` (instance.py:668-674) builds
`list(before)` reversed, then the focus, then `after`.  The root has no
`_zip`; its value is returned unchanged. -/
def zipI : InstanceNode → Value
  | .root v _ => v
  | .member n sibs v _ _ => .obj (objSet sibs n v)
  | .entry _ b a v _ _ => .arr (b.reverse ++ v :: a)

/-- Embeds `InstanceNode.up` (instance.py:268-275) and the RootNode override
(instance.py:480-486): the root raises NonexistentInstance; otherwise the
parent is `_copy`-ed with the `_zip` of the receiver. -/
def upI : InstanceNode → Except PyErr InstanceNode
  | .root _ _ => .error .nonexistentInstance
  | .member n sibs v p sn => .ok (copyI p (zipI (.member n sibs v p sn)))
  | .entry i b a v p sn => .ok (copyI p (zipI (.entry i b a v p sn)))

/-- Embeds `InstanceNode.put_member` (instance.py:198-220): a non-object
value raises InstanceValueError; the member schema node is resolved (raising
NonexistentSchemaNode when the schema does not permit the name); the value
(run through the child `from_raw` when `raw` is set) is assigned into a copy
of the object; the result is `self._copy(newval)._member(name)`. -/
def put_member (x : InstanceNode) (nm : String) (v : Value) (raw : Bool) :
    Except PyErr InstanceNode :=
  match valueOf x with
  | .obj members =>
      match member_schema_node x nm with
      | .error e => .error e
      | .ok csn =>
          match (if raw then fromRaw csn none v else .ok v) with
          | .error e => .error e
          | .ok w => memberI (copyI x (.obj (objSet members nm w))) (.str nm)
  | _ => .error .instanceValueError

/-- Embeds `InstanceNode.delete_item` (instance.py:222-239): a scalar raises
InstanceValueError; otherwise `del newval[key]` runs under
`except (KeyError, IndexError, TypeError)` whose handler builds
`NonexistentInstance(self, "item " + key)` - and `"item " + key` itself
raises TypeError when the key is an integer, so a missing INTEGER key
escapes as an (unhandled) TypeError instead of NonexistentInstance. -/
def delete_item (x : InstanceNode) (key : IKey) : Except PyErr InstanceNode :=
  match valueOf x, key with
  | .obj members, .str k =>
      match objPop members k with
      | some (_, rest) => .ok (copyI x (.obj rest))
      | none => .error .nonexistentInstance
  | .obj _, .int _ => .error .typeError
  | .arr vals, .int index =>
      let n : Int := vals.length
      let i : Int := if index < 0 then n + index else index
      if 0 ≤ i ∧ i < n then .ok (copyI x (.arr (vals.eraseIdx i.toNat)))
      else .error .typeError
  | .arr _, .str _ => .error .nonexistentInstance
  | _, _ => .error .instanceValueError

/-- Embeds `ArrayEntry.previous` (instance.py:605-618): pop the head of
`before` (the first entry raises NonexistentInstance), cons the focus onto
`after`, decrement the index.  Other node shapes have no such method
(AttributeError). -/
def prevE : InstanceNode → Except PyErr InstanceNode
  | .entry i b a v p sn =>
      match b with
      | [] => .error .nonexistentInstance
      | w :: nbef => .ok (.entry (i - 1) nbef (v :: a) w p sn)
  | _ => .error .attributeError

/-- Embeds `ArrayEntry.next` (instance.py:620-632): pop the head of `after`
(the last entry raises NonexistentInstance), cons the focus onto `before`,
increment the index. -/
def nextE : InstanceNode → Except PyErr InstanceNode
  | .entry i b a v p sn =>
      match a with
      | [] => .error .nonexistentInstance
      | w :: naft => .ok (.entry (i + 1) (v :: b) naft w p sn)
  | _ => .error .attributeError

/-- Embeds `ArrayEntry.insert_before` (instance.py:634-647) for a cooked
value (`raw=False`, so `_cook_value` returns the value unchanged): a new
entry with the SAME index, the same `before`, and the former focus consed
onto `after`. -/
def insertBeforeE (x : InstanceNode) (v : Value) : Except PyErr InstanceNode :=
  match x with
  | .entry i b a w p sn => .ok (.entry i b (w :: a) v p sn)
  | _ => .error .attributeError

/-- Embeds `ArrayEntry.insert_after` (instance.py:649-662) for a cooked
value: a new entry with index `self.index` (NOT incremented), the former
focus consed onto `before`, and the same `after`. -/
def insertAfterE (x : InstanceNode) (v : Value) : Except PyErr InstanceNode :=
  match x with
  | .entry i b a w p sn => .ok (.entry i (w :: b) a v p sn)
  | _ => .error .attributeError

/-- What `InstanceNode.__iter__` yields: ArrayEntry nodes for an array,
plain member names for an object. -/
inductive IterResult where
  | entries : List InstanceNode → IterResult
  | names : List String → IterResult

/-- The chain of entries produced by repeatedly calling `next()` starting
from the given zipper state, ending when `after` is exhausted (where
`next()` raises NonexistentInstance and the generator stops).  The lemma
`entryChain_next_step` below checks this against `nextE`. -/
def entryChain (i : Int) (b : List Value) (v : Value) (p : InstanceNode)
    (sn : SchemaNode) : List Value → List InstanceNode
  | [] => [.entry i b [] v p sn]
  | w :: rest => .entry i b (w :: rest) v p sn ::
      entryChain (i + 1) (v :: b) w p sn rest

/-- The `next()`-chain starting at an instance node (identity chain for the
other shapes, unreached by the callers). -/
def chainOf : InstanceNode → List InstanceNode
  | .entry i b a v p sn => entryChain i b v p sn a
  | e => [e]

/-- Embeds `InstanceNode.__iter__` (instance.py:172-191): on an array, a
generator that starts at `self[0]` and repeatedly calls `next()`, stopping
(normally, as a finite sequence) when NonexistentInstance is raised - in
particular an empty array stops immediately; on an object, an iterator over
the member names; on a scalar, InstanceValueError. -/
def iterI (x : InstanceNode) : Except PyErr IterResult :=
  match valueOf x with
  | .arr _ =>
      match getItem x (.int 0) with
      | .error _ => .ok (.entries [])
      | .ok e => .ok (.entries (chainOf e))
  | .obj ms => .ok (.names (ms.map Prod.fst))
  | _ => .error .instanceValueError

/-- The instance-route selectors of instance.py: MemberName, EntryIndex,
EntryValue, EntryKeys. -/
inductive Selector where
  | memberName : String → Selector
  | entryIndex : Int → Selector
  | entryValue : Value → Selector
  | entryKeys : List (String × Value) → Selector
deriving Repr

/-- Embeds `InstanceSelector.peek_step` (instance.py:750-759), shared by
MemberName and EntryIndex: `val[self.key]` under
`except (IndexError, KeyError, TypeError): return None`.  Any other
exception would escape. -/
def instSelPeek (key : IKey) (val : Value) : Except PyErr (Option Value) :=
  match pySubscript val key with
  | .ok v => .ok (some v)
  | .error .indexError => .ok none
  | .error .keyError => .ok none
  | .error .typeError => .ok none
  | .error e => .error e

/-- `list.index(x)` on an array: index of the first element equal to `x`. -/
def listFindIdx (x : Value) : List Value → Option Nat
  | [] => none
  | w :: rest =>
      if valueBEq w x then some 0
      else match listFindIdx x rest with
           | none => none
           | some i => some (i + 1)

/-- `str.index(sub)`: position of the first occurrence of `sub`. -/
def strFind (pat : List Char) : List Char → Option Nat
  | [] => if pat.isEmpty then some 0 else none
  | c :: rest =>
      if pat.isPrefixOf (c :: rest) then some 0
      else match strFind pat rest with
           | none => none
           | some i => some (i + 1)

/-- Python `val.index(x)` as used by `EntryValue.peek_step`: lists and
strings have an `index` method (ValueError when the element is absent,
TypeError when a string is searched for a non-string); dicts and the other
scalars have none (AttributeError). -/
def pyIndexMethod (val : Value) (x : Value) : Except PyErr Nat :=
  match val with
  | .arr vs =>
      match listFindIdx x vs with
      | some i => .ok i
      | none => .error .valueError
  | .str s =>
      match x with
      | .str sub =>
          match strFind sub.toList s.toList with
          | some i => .ok i
          | none => .error .valueError
      | _ => .error .typeError
  | _ => .error .attributeError

/-- Embeds `EntryValue.peek_step` (instance.py:801-810):
`arr[arr.index(self.value)]` under `except ValueError: return None`.
AttributeError / TypeError from `.index` on a non-sequence escape. -/
def entryValuePeek (x val : Value) : Except PyErr (Option Value) :=
  match pyIndexMethod val x with
  | .ok i =>
      match pySubscript val (.int (i : Int)) with
      | .ok w => .ok (some w)
      | .error e => .error e
  | .error .valueError => .ok none
  | .error e => .error e

/-- The inner key loop of `EntryKeys.peek_step` (instance.py:850-854):
`en[k] != self.keys[k]` for each queried key in order; a missing key
(KeyError) or an unsubscriptable entry (TypeError) escapes. -/
def pyEntryMatch : List (String × Value) → Value → Except PyErr Bool
  | [], _ => .ok true
  | (k, kv) :: rest, en =>
      match pySubscript en (.str k) with
      | .error e => .error e
      | .ok v => if valueBEq v kv then pyEntryMatch rest en else .ok false

/-- The entry loop of `EntryKeys.peek_step`: return the first entry all of
whose queried keys match; fall through to `None`. -/
def entryKeysScan (ks : List (String × Value)) :
    List Value → Except PyErr (Option Value)
  | [] => .ok none
  | en :: rest =>
      match pyEntryMatch ks en with
      | .error e => .error e
      | .ok true => .ok (some en)
      | .ok false => entryKeysScan ks rest

/-- Embeds `EntryKeys.peek_step` (instance.py:843-855): iterate `for en in
arr` (whatever shape `arr` has) and scan for a full key match. -/
def entryKeysPeek (ks : List (String × Value)) (val : Value) :
    Except PyErr (Option Value) :=
  match pyIter val with
  | .error e => .error e
  | .ok l => entryKeysScan ks l

/-- `peek_step` dispatched over the four selector classes. -/
def peek_step : Selector → Value → Except PyErr (Option Value)
  | .memberName k, val => instSelPeek (.str k) val
  | .entryIndex i, val => instSelPeek (.int i) val
  | .entryValue v, val => entryValuePeek v val
  | .entryKeys ks, val => entryKeysPeek ks val

/-- Modelled from the spec: parser.py is not under src/; whitespace that the
grammar ignores around `=` and inside brackets (`skip_ws`). -/
def isWsp (c : Char) : Bool :=
  c = ' ' || c = '\t'

/-- `Parser.skip_ws`, modelled from the spec. -/
def skipWs (cs : List Char) : List Char :=
  cs.dropWhile isWsp

/-- Modelled from the spec: a character of a YANG identifier (the member
name production `[prefix:]local`); never a colon, a bracket, a slash, a
quote or whitespace. -/
def identChar (c : Char) : Bool :=
  c.isAlphanum || c = '_' || c = '-' || c = '.'

/-- `Parser.prefixed_name`, modelled from the spec: `[prefix:]local`,
returning the local name, the optional prefix, and the unconsumed input;
an empty name is malformed input. -/
def prefixedName (cs : List Char) :
    Except PyErr ((String × Option String) × List Char) :=
  let nm := cs.takeWhile identChar
  let rest := cs.dropWhile identChar
  if nm.isEmpty then .error .unexpectedInput
  else
    match rest with
    | ':' :: rest2 =>
        let nm2 := rest2.takeWhile identChar
        let rest3 := rest2.dropWhile identChar
        if nm2.isEmpty then .error .unexpectedInput
        else .ok ((String.mk nm2, some (String.mk nm)), rest3)
    | _ => .ok ((String.mk nm, none), rest)

/-- Embeds `InstancePathParser._member_name` (instance.py:868-874): parse a
prefixed name, resolve `sn.get_data_child(name, ns if ns else sn.ns)`, fail
with NonexistentSchemaNode when there is no such child, and return the
member name selector text `cn.iname()` together with the child. -/
def memberNameP (sn : SchemaNode) (cs : List Char) :
    Except PyErr ((String × SchemaNode) × List Char) :=
  match prefixedName cs with
  | .error e => .error e
  | .ok ((nm, pfx), rest) =>
      match get_data_child sn nm
          (match pfx with | some p => some p | none => some sn.ns) with
      | none => .error .nonexistentSchemaNode
      | some cn => .ok ((iname cn, cn), rest)

/-- Decimal value of a digit run. -/
def digitsVal (ds : List Char) : Nat :=
  ds.foldl (fun a c => 10 * a + (c.toNat - 48)) 0

/-- `Parser.unsigned_integer`, modelled from the spec: the maximal leading
run of decimal digits; none at all is malformed input. -/
def unsignedIntegerP (cs : List Char) : Except PyErr (Nat × List Char) :=
  let ds := cs.takeWhile Char.isDigit
  if ds.isEmpty then .error .unexpectedInput
  else .ok (digitsVal ds, cs.dropWhile Char.isDigit)

/-- `Parser.up_to`, modelled from the spec: the text up to (and consuming)
the terminator; running out of input is end-of-input. -/
def upTo (q : Char) : List Char → Except PyErr (List Char × List Char)
  | [] => .error .endOfInput
  | c :: rest =>
      if c = q then .ok ([], rest)
      else match upTo q rest with
           | .error e => .error e
           | .ok (txt, rem) => .ok (c :: txt, rem)

/-- Embeds `InstanceIdParser._get_value` (instance.py:953-961):
`skip_ws; char("="); skip_ws; quote = one_of("'\x22"); val = up_to(quote);
skip_ws; char("]"); return tn.type.parse_value(val)`.  The schema node is
optional because `_key_predicates` passes the result of `get_data_child`
unchecked: a `None` node crashes with AttributeError only at the final
`tn.type` dereference.  The datatype module is not under src/;
`parse_value` is modelled from the spec as the literal quoted text. -/
def getValueP (kn : Option SchemaNode) (cs : List Char) :
    Except PyErr (Value × List Char) :=
  match skipWs cs with
  | '=' :: cs2 =>
      match skipWs cs2 with
      | [] => .error .endOfInput
      | q :: cs4 =>
          if q = '\'' || q = '"' then
            match upTo q cs4 with
            | .error e => .error e
            | .ok (txt, cs5) =>
                match skipWs cs5 with
                | ']' :: cs7 =>
                    match kn with
                    | none => .error .attributeError
                    | some _ => .ok (.str (String.mk txt), cs7)
                | [] => .error .endOfInput
                | _ => .error .unexpectedInput
          else .error .unexpectedInput
  | [] => .error .endOfInput
  | _ => .error .unexpectedInput

/-- Embeds `InstanceIdParser._key_predicates` (instance.py:963-978): one or
more `[name=value]` predicates; each resolves `get_data_child(name, ns)`
and parses the quoted value; the loop continues while the next character is
an opening bracket.  The fuel is the surrounding input length (each
iteration consumes at least one character). -/
def keyPredicatesP (fuel : Nat) (sn : SchemaNode) (sel : List (String × Value))
    (cs : List Char) : Except PyErr (List (String × Value) × List Char) :=
  match fuel with
  | 0 => .error .endOfInput
  | fuel + 1 =>
      match prefixedName cs with
      | .error e => .error e
      | .ok ((nm, pfx), rest) =>
          let knod := get_data_child sn nm pfx
          match getValueP knod rest with
          | .error e => .error e
          | .ok (v, rest2) =>
              let sel2 := sel ++ [(match knod with
                                   | some k => iname k
                                   | none => nm, v)]
              match rest2 with
              | '[' :: rest3 => keyPredicatesP fuel sn sel2 (skipWs rest3)
              | _ => .ok (sel2, rest2)

mutual

/-- Embeds `InstanceIdParser.parse` (instance.py:923-951), written as one
stage per source construct so that each step can be reasoned about
separately.  Loop entry (instance.py:927-928): `char("/")` - end of input
raises EndOfInput, any other character UnexpectedInput.  The fuel is the
input length plus one (each iteration consumes the leading slash). -/
def parseIId : Nat → SchemaNode → List Selector → List Char →
    Except PyErr (List Selector)
  | 0, _, _, _ => .error .endOfInput
  | _ + 1, _, _, [] => .error .endOfInput
  | fuel + 1, sn, res, '/' :: cs1 => parseMember fuel sn res cs1
  | _ + 1, _, _, _ => .error .unexpectedInput
termination_by fuel _ _ _ => (fuel, 0)

/-- Parse stage for instance.py:929-930: `_member_name` and appending the
MemberName selector. -/
def parseMember (fuel : Nat) (sn : SchemaNode) (res : List Selector)
    (cs1 : List Char) : Except PyErr (List Selector) :=
  match memberNameP sn cs1 with
  | .error e => .error e
  | .ok ((mn, cn), cs2) =>
      parseAfterMember fuel cn (res ++ [Selector.memberName mn]) cs2
termination_by (fuel, 4)

/-- Parse stage for instance.py:931-937 and 951: peek - end of input
returns the route; `[` starts a predicate (consuming it and skipping
whitespace); anything else loops with the child as the new schema context
(where a non-slash next character will fail in `char("/")`). -/
def parseAfterMember (fuel : Nat) (cn : SchemaNode) (res1 : List Selector) :
    List Char → Except PyErr (List Selector)
  | [] => .ok res1
  | '[' :: cs3 => parsePredicate fuel cn res1 (skipWs cs3)
  | cs2 => parseIId fuel cn res1 cs2
termination_by (fuel, 3)

/-- Parse stage for instance.py:938-949: a leading DIGIT parses
`unsigned_integer() - 1` and raises UnexpectedInput when that is negative
(i.e. when the predicate integer is 0), then expects `]` and appends an
EntryIndex selector; otherwise a leaf-list expects `.` and parses an
EntryValue; otherwise one or more key predicates.  Peeking at the end of
input raises EndOfInput. -/
def parsePredicate (fuel : Nat) (cn : SchemaNode) (res1 : List Selector) :
    List Char → Except PyErr (List Selector)
  | [] => .error .endOfInput
  | c :: cs4 =>
      if c.isDigit then
        match unsignedIntegerP (c :: cs4) with
        | .error e => .error e
        | .ok (n, cs5) =>
            if (n : Int) - 1 < 0 then .error .unexpectedInput
            else
              match skipWs cs5 with
              | ']' :: cs6 =>
                  parseContinue fuel cn
                    (res1 ++ [Selector.entryIndex ((n : Int) - 1)]) cs6
              | [] => .error .endOfInput
              | _ => .error .unexpectedInput
      else if cn.kind == .leafList then
        match c :: cs4 with
        | '.' :: cs5 =>
            match getValueP (some cn) cs5 with
            | .error e => .error e
            | .ok (v, cs6) =>
                parseContinue fuel cn (res1 ++ [Selector.entryValue v]) cs6
        | _ => .error .unexpectedInput
      else
        match keyPredicatesP fuel cn [] (c :: cs4) with
        | .error e => .error e
        | .ok (sel, cs6) =>
            parseContinue fuel cn (res1 ++ [Selector.entryKeys sel]) cs6
termination_by (fuel, 2)

/-- Parse stage for instance.py:950-951: after a predicate, end of input
returns the route, otherwise the loop continues. -/
def parseContinue (fuel : Nat) (cn : SchemaNode) (res2 : List Selector)
    (cs6 : List Char) : Except PyErr (List Selector) :=
  if cs6.isEmpty then .ok res2 else parseIId fuel cn res2 cs6
termination_by (fuel, 1)

end

/-- `InstanceIdParser.parse` on a whole identifier string, with the schema
context (`Context.schema`) passed explicitly. -/
def instanceIdParse (sn : SchemaNode) (s : String) :
    Except PyErr (List Selector) :=
  parseIId (s.length + 1) sn [] s.toList

/-! Concrete fixtures used by counterexamples and witnesses. -/

/-- A leaf schema node `a` in module `m`. -/
def leafA : SchemaNode := .mk .leaf "a" "m" "m" []

/-- A leaf schema node `b` in module `m`. -/
def leafB : SchemaNode := .mk .leaf "b" "m" "m" []

/-- A container with the two leaves `a` and `b`. -/
def contAB : SchemaNode := .mk .container "c" "m" "m" [leafA, leafB]

/-- A leaf schema node `foo` in module `m`. -/
def leafFoo : SchemaNode := .mk .leaf "foo" "m" "m" []

/-- A container whose only child is the leaf `foo`. -/
def contFoo : SchemaNode := .mk .container "c" "m" "m" [leafFoo]

/-- A list schema node `srv` in module `m`. -/
def listSrv : SchemaNode := .mk .listNode "srv" "m" "m" []

/-- A root container whose only child is the list `srv`. -/
def rootM : SchemaNode := .mk .container "root" "m" "m" [listSrv]

/-- A root instance holding the object with members a=1, b=2. -/
def xAB : InstanceNode := .root (.obj [("a", .int 1), ("b", .int 2)]) contAB

/-- A root instance holding the array of 10, 20, 30. -/
def xArr3 : InstanceNode := .root (.arr [.int 10, .int 20, .int 30]) contAB

/-- A root instance holding the array of 1, 2. -/
def xArr2 : InstanceNode := .root (.arr [.int 1, .int 2]) contAB

/-! Helper lemmas. -/

theorem foldl_cons_eq {α : Type} (l acc : List α) :
    l.foldl (fun r v => v :: r) acc = l.reverse ++ acc := by
  induction l generalizing acc with
  | nil => simp
  | cons a t ih => simp [List.foldl, ih]

/-- `LinkedList.from_list` keeps the order of the Python list: its head is
the FIRST element of the input (this fork passes no `reverse` flag). -/
theorem fromList_eq (vals : List Value) : fromList vals = vals := by
  simp [fromList, foldl_cons_eq]

theorem gdcScan_map {α β : Type} (f : α → β) (mA dA cA : α → Bool)
    (mB dB cB : β → Bool) (hm : ∀ a, mB (f a) = mA a)
    (hd : ∀ a, dB (f a) = dA a) (hc : ∀ a, cB (f a) = cA a) :
    ∀ (l cands : List α),
      gdcScan mB dB cB (cands.map f) (l.map f) =
        match gdcScan mA dA cA cands l with
        | .inl c => .inl (f c)
        | .inr out => .inr (out.map f) := by
  intro l
  induction l with
  | nil => intro cands; simp [gdcScan]
  | cons c rest ih =>
      intro cands
      simp only [List.map_cons, gdcScan, hm, hd, hc]
      by_cases h1 : mA c = true
      · simp only [h1, if_true]
        by_cases h2 : dA c = true
        · simp [h2]
        · simp only [Bool.not_eq_true] at h2
          simp only [h2]
          have := ih (c :: cands)
          simpa using this
      · simp only [Bool.not_eq_true] at h1
        simp only [h1]
        by_cases h3 : cA c = true
        · simp only [h3, if_true, if_false]
          have := ih (cands ++ [c])
          simpa using this
        · simp only [Bool.not_eq_true] at h3
          simp only [h3]
          simpa using ih cands

/-- `get_data_child` restated over the plain children list (the definition
scans `children.attach` only so that termination is visible). -/
theorem get_data_child_plain (s : SchemaNode) (name : String)
    (ns : Option String) :
    get_data_child s name ns =
      match gdcScan
          (fun c : SchemaNode => c.name == name && c.ns == (ns.getD s.ns))
          SchemaNode.isData SchemaNode.isChoiceCase [] s.children with
      | .inl c => some c
      | .inr cands =>
          (cands.map (fun c => get_data_child c name (some (ns.getD s.ns)))).foldl
            (fun a b => a <|> b) none := by
  rw [get_data_child]
  have hmap := gdcScan_map (Subtype.val)
    (fun c : {c // c ∈ s.children} => c.1.name == name && c.1.ns == (ns.getD s.ns))
    (fun c => c.1.isData) (fun c => c.1.isChoiceCase)
    (fun c : SchemaNode => c.name == name && c.ns == (ns.getD s.ns))
    SchemaNode.isData SchemaNode.isChoiceCase
    (fun a => rfl) (fun a => rfl) (fun a => rfl) s.children.attach []
  rw [List.map_nil, List.attach_map_subtype_val] at hmap
  rw [hmap]
  cases hsub : gdcScan
      (fun c : {c // c ∈ s.children} => c.1.name == name && c.1.ns == (ns.getD s.ns))
      (fun c => c.1.isData) (fun c => c.1.isChoiceCase) [] s.children.attach with
  | inl c => rfl
  | inr cands => simp [List.map_map, Function.comp]

/-! Claim C2. -/

/-- C2: code-bug evaluation.  For the array value [10, 20, 30] and index 2,
`x[2].up().value` is [20, 10, 30], not [10, 20, 30]: `_entry` builds
`before` in array order (`from_list` has no `reverse` flag in this fork)
while `_zip` reverses it, so the prefix before the focus comes back
reversed and the claimed round-trip equality fails. -/
theorem entry_up_reverses_prefix :
    ((getItem xArr3 (.int 2)).bind upI).map valueOf
      = .ok (.arr [.int 20, .int 10, .int 30]) ∧
    Value.arr [.int 20, .int 10, .int 30] ≠ valueOf xArr3 := by
  refine ⟨rfl, ?_⟩
  simp [valueOf, xArr3]

/-! Claim C4. -/

/-- C4: code-bug evaluation.  `delete_item` on the array [1, 2] with the
out-of-range integer index 5 raises TypeError (the handler text
`"item " + key` cannot concatenate str and int), not the documented
NonexistentInstance; a present index and a scalar receiver behave as the
claim says. -/
theorem delete_item_int_key_type_error :
    delete_item xArr2 (.int 5) = .error .typeError ∧
    Except.error (ε := PyErr) (α := InstanceNode) .typeError
      ≠ .error .nonexistentInstance ∧
    (delete_item xArr2 (.int 0)).map valueOf = .ok (.arr [.int 2]) ∧
    delete_item (.root (.int 7) contAB) (.int 0) = .error .instanceValueError := by
  refine ⟨rfl, by simp, rfl, rfl⟩

/-! Claim C6. -/

/-- C6: code-bug evaluation.  For the entry at index 0 of the array [1, 2],
`insert_after(99)` returns a new entry whose index is still 0 - the source
passes `self.index` instead of `self.index + 1` - while the preceding
sibling is the former focus as claimed; `insert_before(99)` keeps index 0
and pushes the former focus onto `after`, as claimed. -/
theorem insert_after_index_not_incremented :
    (getItem xArr2 (.int 0)).bind (fun e => insertAfterE e (.int 99))
      = .ok (.entry 0 [.int 1] [.int 2] (.int 99) xArr2 contAB) ∧
    ((getItem xArr2 (.int 0)).bind (fun e => insertAfterE e (.int 99))).map indexOf
      = .ok 0 ∧
    (0 : Int) ≠ 0 + 1 ∧
    (getItem xArr2 (.int 0)).bind (fun e => insertBeforeE e (.int 99))
      = .ok (.entry 0 [] [.int 1, .int 2] (.int 99) xArr2 contAB) := by
  refine ⟨rfl, rfl, by decide, rfl⟩

/-! Object-dictionary lemmas. -/

theorem objLookup_of_not_mem (l : List (String × Value)) (k : String)
    (h : k ∉ l.map Prod.fst) : objLookup l k = none := by
  induction l with
  | nil => rfl
  | cons p rest ih =>
      simp only [List.map_cons, List.mem_cons] at h
      push_neg at h
      simp only [objLookup]
      rw [if_neg (fun he => h.1 he.symm)]
      exact ih h.2

theorem objLookup_append (l l2 : List (String × Value)) (q : String) :
    objLookup (l ++ l2) q =
      match objLookup l q with
      | some w => some w
      | none => objLookup l2 q := by
  induction l with
  | nil => rfl
  | cons p rest ih =>
      by_cases h : p.1 = q
      · simp [objLookup, h]
      · simp [objLookup, h, ih]

theorem objSet_append_of_not_mem (l : List (String × Value)) (k : String)
    (v : Value) (h : k ∉ l.map Prod.fst) : objSet l k v = l ++ [(k, v)] := by
  induction l with
  | nil => rfl
  | cons p rest ih =>
      simp only [List.map_cons, List.mem_cons] at h
      push_neg at h
      cases p with
      | mk k2 v2 =>
          simp only [objSet]
          rw [if_neg (fun he => h.1 he.symm)]
          simp only [List.cons_append, List.cons.injEq, true_and]
          exact ih h.2

theorem objPop_lookup_self (l : List (String × Value)) (k : String) (v : Value)
    (sibs : List (String × Value)) (h : objPop l k = some (v, sibs)) :
    objLookup l k = some v := by
  induction l generalizing sibs with
  | nil => simp [objPop] at h
  | cons p rest ih =>
      cases p with
      | mk k2 v2 =>
          by_cases he : k2 = k
          · subst he
            simp only [objPop, eq_self_iff_true, if_true, Option.some.injEq, Prod.mk.injEq] at h
            simp [objLookup, h.1]
          · simp only [objPop, if_neg he] at h
            cases hrec : objPop rest k with
            | none => rw [hrec] at h; simp at h
            | some p2 =>
                rw [hrec] at h
                cases p2 with
                | mk w rest2 =>
                    simp only [Option.some.injEq, Prod.mk.injEq] at h
                    simp only [objLookup, if_neg he]
                    exact ih rest2 (by rw [hrec, h.1])

theorem objPop_lookup_other (l : List (String × Value)) (k : String) (v : Value)
    (sibs : List (String × Value)) (q : String) (h : objPop l k = some (v, sibs))
    (hq : q ≠ k) : objLookup sibs q = objLookup l q := by
  induction l generalizing sibs with
  | nil => simp [objPop] at h
  | cons p rest ih =>
      cases p with
      | mk k2 v2 =>
          by_cases he : k2 = k
          · subst he
            simp only [objPop, eq_self_iff_true, if_true, Option.some.injEq, Prod.mk.injEq] at h
            rw [h.2]
            simp [objLookup, if_neg (fun hc : k2 = q => hq hc.symm)]
          · simp only [objPop, if_neg he] at h
            cases hrec : objPop rest k with
            | none => rw [hrec] at h; simp at h
            | some p2 =>
                rw [hrec] at h
                cases p2 with
                | mk w rest2 =>
                    simp only [Option.some.injEq, Prod.mk.injEq] at h
                    rw [← h.2]
                    by_cases hk2 : k2 = q
                    · simp [objLookup, hk2]
                    · simp only [objLookup, if_neg hk2]
                      exact ih rest2 (by rw [hrec, h.1])

theorem objPop_sublist_keys (l : List (String × Value)) (k : String) (v : Value)
    (sibs : List (String × Value)) (h : objPop l k = some (v, sibs)) :
    ∀ q, q ∈ sibs.map Prod.fst → q ∈ l.map Prod.fst := by
  induction l generalizing sibs with
  | nil => simp [objPop] at h
  | cons p rest ih =>
      cases p with
      | mk k2 v2 =>
          by_cases he : k2 = k
          · subst he
            simp only [objPop, eq_self_iff_true, if_true, Option.some.injEq, Prod.mk.injEq] at h
            intro q hin
            rw [← h.2] at hin
            simp only [List.map_cons, List.mem_cons]
            exact Or.inr hin
          · simp only [objPop, if_neg he] at h
            cases hrec : objPop rest k with
            | none => rw [hrec] at h; simp at h
            | some p2 =>
                rw [hrec] at h
                cases p2 with
                | mk w rest2 =>
                    simp only [Option.some.injEq, Prod.mk.injEq] at h
                    intro q hin
                    rw [← h.2] at hin
                    simp only [List.map_cons, List.mem_cons] at hin ⊢
                    cases hin with
                    | inl hh => exact Or.inl hh
                    | inr hh =>
                        exact Or.inr (ih rest2 (by rw [hrec, h.1]) q hh)

theorem objPop_not_mem (l : List (String × Value)) (k : String) (v : Value)
    (sibs : List (String × Value)) (hnd : (l.map Prod.fst).Nodup)
    (h : objPop l k = some (v, sibs)) : k ∉ sibs.map Prod.fst := by
  induction l generalizing sibs with
  | nil => simp [objPop] at h
  | cons p rest ih =>
      cases p with
      | mk k2 v2 =>
          simp only [List.map_cons, List.nodup_cons] at hnd
          by_cases he : k2 = k
          · subst he
            simp only [objPop, eq_self_iff_true, if_true, Option.some.injEq, Prod.mk.injEq] at h
            rw [h.2] at hnd
            exact hnd.1
          · simp only [objPop, if_neg he] at h
            cases hrec : objPop rest k with
            | none => rw [hrec] at h; simp at h
            | some p2 =>
                rw [hrec] at h
                cases p2 with
                | mk w rest2 =>
                    simp only [Option.some.injEq, Prod.mk.injEq] at h
                    rw [← h.2]
                    simp only [List.map_cons, List.mem_cons]
                    push_neg
                    refine ⟨fun hc => he hc.symm, ?_⟩
                    exact ih rest2 hnd.2 (by rw [hrec, h.1])

theorem valueOf_copyI (x : InstanceNode) (w : Value) :
    valueOf (copyI x w) = w := by
  cases x <;> rfl

theorem snOf_copyI (x : InstanceNode) (w : Value) :
    snOf (copyI x w) = snOf x := by
  cases x <;> rfl

/-! Claim C1. -/

/-- C1 (amended): for an object-valued instance node and a member name `k`
present in its value (with duplicate-free member names and a schema node for
`k`), descending with `x[k]` and calling `up()` yields a node whose value
contains exactly the same members with the same values (lookup-equal to
`x.value`), but with member `k` REINSERTED AT THE END of the insertion order
(the siblings keep their relative order); `k` keeps its original position
only when it was the last member. -/
theorem up_reinserts_member_at_end
    (x : InstanceNode) (k : String) (members sibs : List (String × Value))
    (v : Value) (csn : SchemaNode)
    (hval : valueOf x = .obj members)
    (hnd : (members.map Prod.fst).Nodup)
    (hpop : objPop members k = some (v, sibs))
    (hsn : member_schema_node x k = .ok csn) :
    getItem x (.str k) = .ok (.member k sibs v x csn) ∧
    (upI (.member k sibs v x csn)).map valueOf
      = .ok (.obj (sibs ++ [(k, v)])) ∧
    (∀ q, objLookup (sibs ++ [(k, v)]) q = objLookup members q) := by
  have hknotin : k ∉ sibs.map Prod.fst := objPop_not_mem members k v sibs hnd hpop
  refine ⟨?_, ?_, ?_⟩
  · simp [getItem, memberI, hval, hpop, hsn]
  · simp only [upI, zipI, Except.map, valueOf_copyI]
    rw [objSet_append_of_not_mem sibs k v hknotin]
  · intro q
    by_cases hq : q = k
    · subst hq
      rw [objLookup_append, objLookup_of_not_mem sibs q hknotin]
      simp [objLookup, objPop_lookup_self members q v sibs hpop]
    · rw [objLookup_append]
      rw [objPop_lookup_other members k v sibs q hpop hq]
      cases hl : objLookup members q with
      | some w => rfl
      | none =>
          have hkq : k ≠ q := fun hc => hq hc.symm
          simp [objLookup, hkq]

/-- C1: counterexample to the claim as stated.  In the object with members
a=1, b=2 (schema: container with leaves a and b), descending to member "a"
and calling `up()` yields the object with members b=2, a=1: the focused
member is reinserted at the END of the insertion order, not at its original
position, so the reconstituted value does not equal `x.value` as an ordered
object. -/
theorem up_member_order_counterexample :
    ((getItem xAB (.str "a")).bind upI).map valueOf
      = .ok (.obj [("b", .int 2), ("a", .int 1)]) ∧
    Value.obj [("b", .int 2), ("a", .int 1)] ≠ valueOf xAB := by
  have hg : get_data_child (snOf xAB) "a" (some "m") = some leafA := by
    rw [get_data_child_plain]; rfl
  have hm : member_schema_node xAB "a" = .ok leafA := by
    show (match get_data_child (snOf xAB) "a" (some "m") with
          | none => Except.error PyErr.nonexistentSchemaNode
          | some c => Except.ok c) = Except.ok leafA
    rw [hg]
  have h1 : getItem xAB (.str "a")
      = .ok (.member "a" [("b", .int 2)] (.int 1) xAB leafA) := by
    show (match member_schema_node xAB "a" with
          | Except.error e => (Except.error e : Except PyErr InstanceNode)
          | Except.ok csn =>
              Except.ok (InstanceNode.member "a" [("b", Value.int 2)]
                (Value.int 1) xAB csn))
        = Except.ok (InstanceNode.member "a" [("b", Value.int 2)]
            (Value.int 1) xAB leafA)
    rw [hm]
  constructor
  · rw [show ((getItem xAB (.str "a")).bind upI).map valueOf
        = ((Except.ok (InstanceNode.member "a" [("b", .int 2)] (.int 1) xAB leafA)
            : Except PyErr InstanceNode).bind upI).map valueOf from by rw [h1]]
    rfl
  · simp [valueOf, xAB]

/-- C1: witness for the amended theorem at the concrete instance `xAB` and
member "b" (the last member, where the reinsertion is order-preserving). -/
theorem up_reinserts_member_at_end_witness :
    getItem xAB (.str "b") = .ok (.member "b" [("a", .int 1)] (.int 2) xAB leafB) ∧
    (upI (.member "b" [("a", .int 1)] (.int 2) xAB leafB)).map valueOf
      = .ok (.obj ([("a", .int 1)] ++ [("b", .int 2)])) ∧
    (∀ q, objLookup ([("a", .int 1)] ++ [("b", .int 2)]) q
      = objLookup [("a", .int 1), ("b", .int 2)] q) :=
  up_reinserts_member_at_end xAB "b" [("a", .int 1), ("b", .int 2)]
    [("a", .int 1)] (.int 2) leafB rfl (by simp) rfl
    (by
      have hg : get_data_child (snOf xAB) "b" (some "m") = some leafB := by
        rw [get_data_child_plain]; rfl
      show (match get_data_child (snOf xAB) "b" (some "m") with
            | none => Except.error PyErr.nonexistentSchemaNode
            | some c => Except.ok c) = Except.ok leafB
      rw [hg])

/-! Claim C3. -/

theorem objPop_objSet (l : List (String × Value)) (k : String) (v : Value) :
    ∃ sibs, objPop (objSet l k v) k = some (v, sibs) := by
  induction l with
  | nil => exact ⟨[], by simp [objSet, objPop]⟩
  | cons p rest ih =>
      cases p with
      | mk k2 v2 =>
          by_cases he : k2 = k
          · subst he
            exact ⟨rest, by simp [objSet, objPop]⟩
          · obtain ⟨sibs, hs⟩ := ih
            exact ⟨(k2, v2) :: sibs, by simp [objSet, objPop, he, hs]⟩

theorem member_schema_node_copyI (x : InstanceNode) (w : Value) (nm : String) :
    member_schema_node (copyI x w) nm = member_schema_node x nm := by
  simp only [member_schema_node, snOf_copyI]

/-- C3: on an object-valued instance node, `put_member(name, value, raw)`
raises NonexistentSchemaNode exactly when `_member_schema_node` cannot
resolve the name; when the schema permits the name (and, for `raw=True`,
the child `from_raw` decodes the value to `w`), the result is a node
focused on the named member with value `w`, whose parent is a copy of the
receiver with the member set or created in its object; the receiver itself
is a value of the persistent embedding and is unchanged by construction. -/
theorem put_member_schema_check
    (x : InstanceNode) (members : List (String × Value)) (nm : String)
    (v : Value) (raw : Bool)
    (hval : valueOf x = .obj members) :
    (member_schema_node x nm = .error .nonexistentSchemaNode →
       put_member x nm v raw = .error .nonexistentSchemaNode)
    ∧ (∀ csn w, member_schema_node x nm = .ok csn →
         (if raw then fromRaw csn none v else .ok v) = .ok w →
         ∃ sibs, put_member x nm v raw
             = .ok (.member nm sibs w (copyI x (.obj (objSet members nm w))) csn)
           ∧ objPop (objSet members nm w) nm = some (w, sibs)) := by
  constructor
  · intro h
    simp [put_member, hval, h]
  · intro csn w hsn hdec
    obtain ⟨sibs, hpop⟩ := objPop_objSet members nm w
    refine ⟨sibs, ?_, hpop⟩
    simp only [put_member, hval, hsn, hdec]
    simp only [memberI, valueOf_copyI, hpop, member_schema_node_copyI, hsn]

/-- C3: witness at the object with the single member b=2 under the
container schema with leaves a and b: creating member "a" with value 5
(raw=False) succeeds and focuses the new member. -/
theorem put_member_schema_check_witness :
    ∃ sibs, put_member (.root (.obj [("b", .int 2)]) contAB) "a" (.int 5) false
        = .ok (.member "a" sibs (.int 5)
            (copyI (.root (.obj [("b", .int 2)]) contAB)
              (.obj (objSet [("b", .int 2)] "a" (.int 5)))) leafA)
      ∧ objPop (objSet [("b", .int 2)] "a" (.int 5)) "a" = some (.int 5, sibs) :=
  (put_member_schema_check (.root (.obj [("b", .int 2)]) contAB)
      [("b", .int 2)] "a" (.int 5) false rfl).2 leafA (.int 5)
    (by
      have hg : get_data_child (snOf (InstanceNode.root
          (Value.obj [("b", Value.int 2)]) contAB)) "a" (some "m") = some leafA := by
        rw [get_data_child_plain]; rfl
      show (match get_data_child (snOf (InstanceNode.root
            (Value.obj [("b", Value.int 2)]) contAB)) "a" (some "m") with
            | none => Except.error PyErr.nonexistentSchemaNode
            | some c => Except.ok c) = Except.ok leafA
      rw [hg])
    rfl

/-! Claim C5. -/

/-- One-step unfolding of the member loop of `InternalNode.from_raw`. -/
theorem fromRawMembers_cons (s : SchemaNode) (ns : Option String)
    (res : List (String × Value)) (qn : String) (rv : Value)
    (rest : List (String × Value)) :
    fromRawMembers s ns res ((qn, rv) :: rest) =
      (match get_data_child s
          (match partitionColon qn.toList with
           | some (_, l) => String.mk l
           | none => qn)
          (match partitionColon qn.toList with
           | some (p, _) => some (String.mk p)
           | none => ns) with
       | none => .error .attributeError
       | some cn =>
           match fromRaw cn none rv with
           | .error e => .error e
           | .ok w =>
               fromRawMembers s
                 (match partitionColon qn.toList with
                  | some (p, _) => some (String.mk p)
                  | none => ns)
                 (objSet res cn.qname w) rest) := by
  simp only [fromRawMembers]

/-- C5 (amended): processing a raw object member either crashes with
AttributeError - when `get_data_child` cannot resolve the key (under the
namespace left by the preceding members), the next line dereferences `None`;
there is no raw-member-error in this code - or, when the key resolves and
the child `from_raw` decodes the member, stores the decoded value under the
child qualified name and continues with the remaining members. -/
theorem from_raw_member_step (s : SchemaNode) (ns : Option String)
    (res : List (String × Value)) (qn : String) (rv : Value)
    (rest : List (String × Value)) :
    (get_data_child s
        (match partitionColon qn.toList with
         | some (_, l) => String.mk l
         | none => qn)
        (match partitionColon qn.toList with
         | some (p, _) => some (String.mk p)
         | none => ns) = none →
      fromRawMembers s ns res ((qn, rv) :: rest) = .error .attributeError)
    ∧ (∀ cn w,
        get_data_child s
            (match partitionColon qn.toList with
             | some (_, l) => String.mk l
             | none => qn)
            (match partitionColon qn.toList with
             | some (p, _) => some (String.mk p)
             | none => ns) = some cn →
        fromRaw cn none rv = .ok w →
        fromRawMembers s ns res ((qn, rv) :: rest)
          = fromRawMembers s
              (match partitionColon qn.toList with
               | some (p, _) => some (String.mk p)
               | none => ns)
              (objSet res cn.qname w) rest) := by
  constructor
  · intro h
    rw [fromRawMembers_cons, h]
  · intro cn w hcn hdec
    simp only [fromRawMembers_cons, hcn, hdec]

/-- C5: counterexample to the claim as stated.  Under the container schema
whose only data child is the leaf `foo`, decoding the raw object with the
unknown key "bar" fails with an (unhandled) AttributeError - the `None`
returned by `get_data_child` is dereferenced at `cn.qname` - and NOT with
raw-member-error. -/
theorem from_raw_unknown_key_attribute_error :
    fromRaw contFoo none (.obj [("bar", .int 1)]) = .error .attributeError ∧
    (Except.error .attributeError : Except PyErr Value)
      ≠ .error .rawMemberError := by
  constructor
  · have hg : get_data_child contFoo "bar" none = none := by
      rw [get_data_child_plain]; rfl
    have hp : partitionColon ['b', 'a', 'r'] = none := rfl
    have hk : contFoo.kind = SchemaKind.container := rfl
    simp [fromRaw, fromRawMembers, hp, hk, hg]
  · simp

/-- C5: witness for the step theorem at the unknown key "bar" under
`contFoo`. -/
theorem from_raw_member_step_witness :
    fromRawMembers contFoo none [] [("bar", Value.int 1)]
      = .error .attributeError :=
  (from_raw_member_step contFoo none [] "bar" (.int 1) []).1
    (by rw [get_data_child_plain]; rfl)

/-! Claim C7. -/

/-- Every failure of Python subscription is one of the three exception
classes that `InstanceSelector.peek_step` catches. -/
theorem pySubscript_error_caught (val : Value) (key : IKey) (e : PyErr)
    (h : pySubscript val key = .error e) :
    e = .keyError ∨ e = .indexError ∨ e = .typeError := by
  cases val <;> cases key <;> simp only [pySubscript] at h <;>
    (try split at h) <;> (try split at h) <;> simp_all

theorem listFindIdx_lt (x : Value) (l : List Value) (i : Nat)
    (h : listFindIdx x l = some i) : i < l.length := by
  induction l generalizing i with
  | nil => simp [listFindIdx] at h
  | cons w rest ih =>
      simp only [listFindIdx] at h
      split at h
      · simp only [Option.some.injEq] at h
        simp only [List.length_cons]
        omega
      · cases hrec : listFindIdx x rest with
        | none => rw [hrec] at h; simp at h
        | some j =>
            rw [hrec] at h
            simp only [Option.some.injEq] at h
            have := ih j hrec
            simp [← h, List.length_cons]
            omega

theorem pyEntryMatch_ok (ks ms : List (String × Value))
    (h : ∀ kp ∈ ks, (objLookup ms kp.1).isSome) :
    ∃ b, pyEntryMatch ks (.obj ms) = .ok b := by
  induction ks with
  | nil => exact ⟨true, rfl⟩
  | cons kp rest ih =>
      cases kp with
      | mk k kv =>
          have hk : (objLookup ms k).isSome := h (k, kv) (List.mem_cons_self _ _)
          cases hl : objLookup ms k with
          | none => rw [hl] at hk; simp at hk
          | some v =>
              simp only [pyEntryMatch, pySubscript, hl]
              by_cases hb : valueBEq v kv = true
              · simp only [hb, if_true]
                exact ih (fun q hq => h q (List.mem_cons_of_mem _ hq))
              · simp only [Bool.not_eq_true] at hb
                simp [hb]

theorem entryKeysScan_ok (ks : List (String × Value)) (vs : List Value)
    (h : ∀ en ∈ vs, ∃ ms, en = .obj ms ∧ ∀ kp ∈ ks, (objLookup ms kp.1).isSome) :
    ∃ o, entryKeysScan ks vs = .ok o := by
  induction vs with
  | nil => exact ⟨none, rfl⟩
  | cons en rest ih =>
      obtain ⟨ms, hen, hkeys⟩ := h en (List.mem_cons_self _ _)
      obtain ⟨b, hb⟩ := pyEntryMatch_ok ks ms hkeys
      subst hen
      cases b with
      | false =>
          simp only [entryKeysScan, hb]
          exact ih (fun e he => h e (List.mem_cons_of_mem _ he))
      | true => exact ⟨some (.obj ms), by simp [entryKeysScan, hb]⟩

theorem entryValuePeek_arr_ok (x : Value) (vs : List Value) :
    ∃ o, entryValuePeek x (.arr vs) = .ok o := by
  simp only [entryValuePeek]
  cases hi : pyIndexMethod (.arr vs) x with
  | ok i =>
      have hlt : i < vs.length := by
        simp only [pyIndexMethod] at hi
        cases hf : listFindIdx x vs with
        | none => rw [hf] at hi; simp at hi
        | some j =>
            rw [hf] at hi
            simp only [Except.ok.injEq] at hi
            subst hi
            exact listFindIdx_lt x vs j hf
      have h0 : ¬ ((i : Int) < 0) := by omega
      have hsub : ∃ w, pySubscript (Value.arr vs) (.int (i : Int)) = .ok w := by
        simp only [pySubscript, if_neg h0]
        rw [if_pos ⟨by omega, by exact_mod_cast hlt⟩]
        exact ⟨_, rfl⟩
      obtain ⟨w, hw⟩ := hsub
      exact ⟨some w, by simp [hw]⟩
  | error e =>
      have he : e = .valueError := by
        simp only [pyIndexMethod] at hi
        cases hf : listFindIdx x vs with
        | none => rw [hf] at hi; simp at hi; exact hi.symm
        | some j => rw [hf] at hi; simp at hi
      subst he
      exact ⟨none, rfl⟩

/-- C7 (amended): `peek_step` never raises for MemberName and EntryIndex
selectors applied to ANY value (the `except (IndexError, KeyError,
TypeError)` clause covers every exception subscription can produce);
`EntryValue.peek_step` never raises on array values; `EntryKeys.peek_step`
never raises on arrays all of whose entries are objects containing every
queried key.  On other values EntryValue / EntryKeys CAN raise (see the
counterexample). -/
theorem peek_step_totality :
    (∀ (k : String) (val : Value), ∃ o, peek_step (.memberName k) val = .ok o)
    ∧ (∀ (i : Int) (val : Value), ∃ o, peek_step (.entryIndex i) val = .ok o)
    ∧ (∀ (x : Value) (vs : List Value),
        ∃ o, peek_step (.entryValue x) (.arr vs) = .ok o)
    ∧ (∀ (ks : List (String × Value)) (vs : List Value),
        (∀ en ∈ vs, ∃ ms, en = .obj ms ∧ ∀ kp ∈ ks, (objLookup ms kp.1).isSome) →
        ∃ o, peek_step (.entryKeys ks) (.arr vs) = .ok o) := by
  refine ⟨?_, ?_, ?_, ?_⟩
  · intro k val
    simp only [peek_step, instSelPeek]
    cases hs : pySubscript val (.str k) with
    | ok v => exact ⟨some v, rfl⟩
    | error e =>
        rcases pySubscript_error_caught val (.str k) e hs with h | h | h <;>
          subst h <;> exact ⟨none, rfl⟩
  · intro i val
    simp only [peek_step, instSelPeek]
    cases hs : pySubscript val (.int i) with
    | ok v => exact ⟨some v, rfl⟩
    | error e =>
        rcases pySubscript_error_caught val (.int i) e hs with h | h | h <;>
          subst h <;> exact ⟨none, rfl⟩
  · intro x vs
    simpa only [peek_step] using entryValuePeek_arr_ok x vs
  · intro ks vs h
    simp only [peek_step, entryKeysPeek, pyIter]
    exact entryKeysScan_ok ks vs h

/-- C7: counterexample to the claim as stated.  `EntryValue.peek_step`
applied to an object value raises AttributeError (`dict` has no `index`
method), and `EntryKeys.peek_step` applied to an array whose entry is a
bare scalar raises TypeError (`en[k]` on an int): `peek_step` is NOT
exception-free on every value. -/
theorem entry_value_peek_raises_on_object :
    peek_step (.entryValue (.int 1)) (.obj []) = .error .attributeError ∧
    peek_step (.entryKeys [("k", .int 1)]) (.arr [.int 5])
      = .error .typeError := by
  exact ⟨rfl, rfl⟩

/-- C7: witness for the EntryKeys part of the totality theorem on a
two-entry list keyed by "name". -/
theorem peek_step_totality_witness :
    ∃ o, peek_step (.entryKeys [("name", .str "b")])
        (.arr [.obj [("name", .str "a")], .obj [("name", .str "b")]]) = .ok o :=
  peek_step_totality.2.2.2 [("name", .str "b")]
    [.obj [("name", .str "a")], .obj [("name", .str "b")]]
    (by
      intro en hen
      simp only [List.mem_cons, List.not_mem_nil, or_false] at hen
      rcases hen with h | h
      · refine ⟨[("name", .str "a")], h, ?_⟩
        intro kp hkp
        simp only [List.mem_singleton] at hkp
        subst hkp
        rfl
      · refine ⟨[("name", .str "b")], h, ?_⟩
        intro kp hkp
        simp only [List.mem_singleton] at hkp
        subst hkp
        rfl)

/-! Claim C9. -/

/-- Faithfulness link: each step of `entryChain` is exactly what `nextE`
produces from the previous entry (and `nextE` on an exhausted `after`
raises NonexistentInstance, which ends the generator). -/
theorem entryChain_next_step (i : Int) (b : List Value) (v w : Value)
    (rest : List Value) (p : InstanceNode) (sn : SchemaNode) :
    entryChain i b v p sn (w :: rest)
      = .entry i b (w :: rest) v p sn :: entryChain (i + 1) (v :: b) w p sn rest
    ∧ nextE (.entry i b (w :: rest) v p sn)
      = .ok (.entry (i + 1) (v :: b) rest w p sn)
    ∧ nextE (.entry i b [] v p sn) = .error .nonexistentInstance :=
  ⟨rfl, rfl, rfl⟩

theorem entryChain_values (a : List Value) :
    ∀ (i : Int) (b : List Value) (v : Value) (p : InstanceNode) (sn : SchemaNode),
      (entryChain i b v p sn a).map valueOf = v :: a := by
  induction a with
  | nil => intro i b v p sn; rfl
  | cons w rest ih =>
      intro i b v p sn
      simp only [entryChain, List.map_cons, valueOf, ih]

theorem entryChain_indices (a : List Value) :
    ∀ (i : Int) (b : List Value) (v : Value) (p : InstanceNode) (sn : SchemaNode),
      (entryChain i b v p sn a).map indexOf
        = (List.range (a.length + 1)).map (fun (j : Nat) => i + (j : Int)) := by
  induction a with
  | nil =>
      intro i b v p sn
      simp [entryChain, indexOf, List.range_succ]
  | cons w rest ih =>
      intro i b v p sn
      have h1 : (entryChain i b v p sn (w :: rest)).map indexOf
          = i :: (entryChain (i + 1) (v :: b) w p sn rest).map indexOf := rfl
      rw [h1, ih (i + 1) (v :: b) w p sn, List.length_cons]
      conv_rhs => rw [List.range_succ_eq_map]
      rw [List.map_cons, List.map_map]
      simp only [Nat.cast_zero, add_zero]
      congr 1
      apply List.map_congr_left
      intro j hj
      simp only [Function.comp_apply]
      push_cast
      ring

theorem entryChain_members (a : List Value) :
    ∀ (i : Int) (b : List Value) (v : Value) (p : InstanceNode) (sn : SchemaNode),
      ∀ e ∈ entryChain i b v p sn a,
        ∃ j bb aa vv, e = .entry j bb aa vv p sn := by
  induction a with
  | nil =>
      intro i b v p sn e he
      simp only [entryChain, List.mem_singleton] at he
      exact ⟨i, b, [], v, he⟩
  | cons w rest ih =>
      intro i b v p sn e he
      simp only [entryChain, List.mem_cons] at he
      cases he with
      | inl h => exact ⟨i, b, w :: rest, v, h⟩
      | inr h => exact ih (i + 1) (v :: b) w p sn e h

/-- C9: iterating over an array-valued instance node yields exactly one
ArrayEntry per element, in index order 0 .. n-1, with the parent and schema
node of the receiver, and terminates (the result is a finite list; an empty
array yields the empty sequence because `self[0]` already raises
NonexistentInstance). -/
theorem array_iteration_enumerates_entries
    (x : InstanceNode) (vals : List Value)
    (hval : valueOf x = .arr vals) :
    ∃ es, iterI x = .ok (.entries es)
      ∧ es.map valueOf = vals
      ∧ es.map indexOf = (List.range vals.length).map (fun (j : Nat) => (j : Int))
      ∧ ∀ e ∈ es, ∃ j bb aa vv, e = .entry j bb aa vv x (snOf x) := by
  cases vals with
  | nil =>
      refine ⟨[], ?_, rfl, rfl, by simp⟩
      have hg : getItem x (.int 0) = .error .nonexistentInstance := by
        simp [getItem, hval, entryI]
      simp [iterI, hval, hg]
  | cons v rest =>
      have hg : getItem x (.int 0) = .ok (.entry 0 [] rest v x (snOf x)) := by
        simp only [getItem, hval, entryI]
        norm_num
        simp [fromList, foldl_cons_eq]
      refine ⟨entryChain 0 [] v x (snOf x) rest, ?_, ?_, ?_, ?_⟩
      · simp [iterI, hval, hg, chainOf]
      · exact entryChain_values rest 0 [] v x (snOf x)
      · rw [show (entryChain 0 [] v x (snOf x) rest).map indexOf
            = (List.range (rest.length + 1)).map
                (fun (j : Nat) => (0 : Int) + (j : Int))
            from entryChain_indices rest 0 [] v x (snOf x)]
        simp
      · exact entryChain_members rest 0 [] v x (snOf x)

/-- C9: witness on the concrete three-entry array. -/
theorem array_iteration_enumerates_entries_witness :
    ∃ es, iterI xArr3 = .ok (.entries es)
      ∧ es.map valueOf = [.int 10, .int 20, .int 30]
      ∧ es.map indexOf = (List.range 3).map (fun (j : Nat) => (j : Int))
      ∧ ∀ e ∈ es, ∃ j bb aa vv, e = .entry j bb aa vv xArr3 (snOf xArr3) :=
  array_iteration_enumerates_entries xArr3 [.int 10, .int 20, .int 30] rfl

/-! Claim C10. -/

/-- C10: `next()` and `previous()` are mutually inverse where defined: on an
entry with a non-empty `after`, `next` then `previous` restores the index,
the focused value, `before`, `after` (and the parent and schema node);
symmetrically with a non-empty `before` for `previous` then `next`. -/
theorem next_previous_inverse (i : Int) (b a : List Value) (v : Value)
    (p : InstanceNode) (sn : SchemaNode) :
    (a ≠ [] → (nextE (.entry i b a v p sn)).bind prevE
        = .ok (.entry i b a v p sn))
    ∧ (b ≠ [] → (prevE (.entry i b a v p sn)).bind nextE
        = .ok (.entry i b a v p sn)) := by
  constructor
  · intro ha
    cases a with
    | nil => exact absurd rfl ha
    | cons w naft =>
        simp only [nextE, prevE, Except.bind]
        rw [Int.add_sub_cancel]
  · intro hb
    cases b with
    | nil => exact absurd rfl hb
    | cons w nbef =>
        simp only [prevE, nextE, Except.bind]
        rw [Int.sub_add_cancel]

/-- C10: witness at a concrete middle entry with both neighbours present. -/
theorem next_previous_inverse_witness :
    (nextE (.entry 1 [.int 1] [.int 3] (.int 2) xArr3 contAB)).bind prevE
      = .ok (.entry 1 [.int 1] [.int 3] (.int 2) xArr3 contAB)
    ∧ (prevE (.entry 1 [.int 1] [.int 3] (.int 2) xArr3 contAB)).bind nextE
      = .ok (.entry 1 [.int 1] [.int 3] (.int 2) xArr3 contAB) :=
  ⟨(next_previous_inverse 1 [.int 1] [.int 3] (.int 2) xArr3 contAB).1
      (by simp),
   (next_previous_inverse 1 [.int 1] [.int 3] (.int 2) xArr3 contAB).2
      (by simp)⟩

/-! Claim C8. -/

theorem takeWhile_all_append (p : Char → Bool) (l r : List Char) (x : Char)
    (hl : ∀ c ∈ l, p c = true) (hx : p x = false) :
    (l ++ x :: r).takeWhile p = l ∧ (l ++ x :: r).dropWhile p = x :: r := by
  induction l with
  | nil =>
      simp only [List.nil_append]
      constructor
      · rw [List.takeWhile_cons_of_neg (by simp [hx])]
      · rw [List.dropWhile_cons_of_neg (by simp [hx])]
  | cons c rest ih =>
      have hc : p c = true := hl c (List.mem_cons_self _ _)
      have hrest : ∀ a ∈ rest, p a = true :=
        fun a ha => hl a (List.mem_cons_of_mem _ ha)
      obtain ⟨h1, h2⟩ := ih hrest
      constructor
      · simp only [List.cons_append, List.takeWhile_cons_of_pos hc, h1]
      · simp only [List.cons_append, List.dropWhile_cons_of_pos hc, h2]

theorem isWsp_false_of_digit (c : Char) (h : c.isDigit = true) :
    isWsp c = false := by
  by_cases h1 : c = ' '
  · subst h1; simp at h
  · by_cases h2 : c = '\t'
    · subst h2; simp at h
    · simp [isWsp, h1, h2]

/-- C8: for every identifier of the shape `/member[digits]` - a member name
(resolvable under the schema context) followed by an integer predicate -
the parser produces a MemberName selector followed by an EntryIndex
selector holding n-1 when the decimal value n of the digits is at least 1,
and raises UnexpectedInput ("positive index") when n is 0 (the predicate
index is 1-based). -/
theorem instance_id_index_predicate (sn cn : SchemaNode) (m ds : List Char)
    (hm0 : m ≠ []) (hmc : ∀ c ∈ m, identChar c = true)
    (hds0 : ds ≠ []) (hdsc : ∀ c ∈ ds, c.isDigit = true)
    (hres : get_data_child sn (String.mk m) (some sn.ns) = some cn) :
    (1 ≤ digitsVal ds →
      instanceIdParse sn (String.mk ('/' :: (m ++ ('[' :: (ds ++ [']'])))))
        = .ok [.memberName (iname cn), .entryIndex ((digitsVal ds : Int) - 1)])
    ∧ (digitsVal ds = 0 →
      instanceIdParse sn (String.mk ('/' :: (m ++ ('[' :: (ds ++ [']'])))))
        = .error .unexpectedInput) := by
  cases ds with
  | nil => exact absurd rfl hds0
  | cons d ds' =>
  simp only [List.cons_append]
  have hEm : m.isEmpty = false := by
    cases m with
    | nil => exact absurd rfl hm0
    | cons a b => rfl
  obtain ⟨htwm, hdwm⟩ :=
    takeWhile_all_append identChar m (d :: (ds' ++ [']'])) '[' hmc (by decide)
  have hpn : prefixedName (m ++ ('[' :: (d :: (ds' ++ [']']))))
      = .ok ((String.mk m, none), '[' :: (d :: (ds' ++ [']']))) := by
    simp only [prefixedName]
    rw [htwm, hdwm, hEm]
    rfl
  have hmn : memberNameP sn (m ++ ('[' :: (d :: (ds' ++ [']']))))
      = .ok ((iname cn, cn), '[' :: (d :: (ds' ++ [']']))) := by
    simp only [memberNameP]
    rw [hpn]
    simp [hres]
  have hd : d.isDigit = true := hdsc d (List.mem_cons_self _ _)
  have hskip1 : skipWs (d :: (ds' ++ [']'])) = d :: (ds' ++ [']']) := by
    simp only [skipWs]
    rw [List.dropWhile_cons_of_neg]
    simp [isWsp_false_of_digit d hd]
  obtain ⟨htwd, hdwd⟩ :=
    takeWhile_all_append Char.isDigit (d :: ds') [] ']' hdsc (by decide)
  simp only [List.cons_append] at htwd hdwd
  have hui : unsignedIntegerP (d :: (ds' ++ [']']))
      = .ok (digitsVal (d :: ds'), [']']) := by
    simp only [unsignedIntegerP, htwd, hdwd]
    rfl
  have hcommon :
      instanceIdParse sn
        (String.mk ('/' :: (m ++ ('[' :: (d :: (ds' ++ [']']))))))
      = (if (digitsVal (d :: ds') : Int) - 1 < 0 then
           Except.error PyErr.unexpectedInput
         else Except.ok [Selector.memberName (iname cn),
           Selector.entryIndex ((digitsVal (d :: ds') : Int) - 1)]) := by
    show parseIId (('/' :: (m ++ ('[' :: (d :: (ds' ++ [']']))))).length + 1)
        sn [] ('/' :: (m ++ ('[' :: (d :: (ds' ++ [']']))))) = _
    simp only [parseIId, parseMember]
    rw [hmn]
    show parseAfterMember
        (('/' :: (m ++ ('[' :: (d :: (ds' ++ [']']))))).length) cn
        ([] ++ [Selector.memberName (iname cn)])
        ('[' :: (d :: (ds' ++ [']']))) = _
    simp only [List.nil_append, parseAfterMember]
    rw [hskip1]
    simp only [parsePredicate]
    rw [if_pos hd, hui]
    show (if ((digitsVal (d :: ds') : Int)) - 1 < 0 then
            Except.error PyErr.unexpectedInput
          else parseContinue
            (('/' :: (m ++ ('[' :: (d :: (ds' ++ [']']))))).length) cn
            ([Selector.memberName (iname cn)]
              ++ [Selector.entryIndex ((digitsVal (d :: ds') : Int) - 1)]) [])
        = _
    simp only [parseContinue]
    rfl
  constructor
  · intro h1
    rw [hcommon, if_neg (by omega)]
  · intro h0
    rw [hcommon, if_pos (by omega)]

/-- C8: witness at the schema `rootM` (list child `srv`) and the identifier
`/srv[2]`, which parses to the member name and the 0-based EntryIndex 1. -/
theorem instance_id_index_predicate_witness :
    instanceIdParse rootM
        (String.mk ('/' :: (['s', 'r', 'v'] ++ ('[' :: (['2'] ++ [']'])))))
      = .ok [.memberName (iname listSrv),
             .entryIndex ((digitsVal ['2'] : Int) - 1)]
    ∧ (digitsVal ['2'] : Int) - 1 = 1 :=
  ⟨(instance_id_index_predicate rootM listSrv ['s', 'r', 'v'] ['2']
      (by decide) (by decide) (by decide) (by decide)
      (by rw [get_data_child_plain]; rfl)).1 (by decide),
   by decide⟩

end Yangson
